import Mathlib

/-!
Verification of the manifest-creation core of
graphic-overlay-manifest-creation-for-broadcasting (src/manifest.py).

Durations (Python floats) are modelled as rationals, so arithmetic is exact.
The Python while-loop in segment_video is modelled with explicit fuel; the
fuel chosen is the exact number of iterations the loop performs when the
nominal segment length is positive, and segmentLoop_fuel below proves the
result is independent of the fuel once it is at least that bound.  When the
nominal length is non-positive and the duration is positive the Python loop
never increases pos, hence never terminates; segment_video returns none in
exactly that case.
-/

/-- Models the segment file name f-string: base is the string interpolated
before the seg number, num is the 1-based segment counter. -/
structure SegFile where
  base : String
  num : ℕ
deriving DecidableEq

/-- One entry of the list produced by segment_video: a dict
filename/duration in the source. -/
structure Segment where
  filename : SegFile
  duration : ℚ
deriving DecidableEq

/-- The durations of a list of segments. -/
def segDurations (segs : List Segment) : List ℚ := segs.map Segment.duration

/-- The body of segment_video's while loop.  State: remaining duration
(duration - pos in the source) and seg_num; one unit of fuel per iteration. -/
def segmentLoop (segment_length : ℚ) (base : String) : ℕ → ℚ → ℕ → List Segment
  | 0, _, _ => []
  | fuel + 1, rem, seg_num =>
    if 0 < rem then
      { filename := { base := base, num := seg_num + 1 },
        duration := min segment_length rem } ::
        segmentLoop segment_length base fuel (rem - min segment_length rem) (seg_num + 1)
    else []

/-- segment_video(filename, duration, segment_length) from src/manifest.py
lines 80-96.  none models the non-terminating run of the while loop, which
happens exactly when duration > 0 and segment_length <= 0 (then
seg_dur = min(segment_length, remaining) <= 0 and pos never grows). -/
def segment_video (filename : String) (duration : ℚ) (segment_length : ℚ) :
    Option (List Segment) :=
  if 0 < duration ∧ segment_length ≤ 0 then
    none
  else
    some (segmentLoop segment_length filename
      (Int.toNat ⌈duration / segment_length⌉) duration 0)

/-- A video dict from the config: the source reads show['id'], show['name'],
show['file_path'] and show['duration']. -/
structure ShowAsset where
  id : String
  name : String
  file_path : String
  duration : ℚ
deriving DecidableEq

/-- An ad dict from the config: the source reads ad['name'], ad['filename']
and ad['duration']. -/
structure Ad where
  name : String
  filename : String
  duration : ℚ
deriving DecidableEq

/-- The ways a run of the (unhandled-exception-free) Python code can fail:
IndexError from segments[-1] on an empty list, ZeroDivisionError from
ad_idx % 0, or non-termination of the segmentation loop. -/
inductive RunError
  | indexError
  | zeroDivisionError
  | nonTermination
deriving DecidableEq

/-- build_show_segments(show, segment_length, skip_ad_if_last_leq) from
src/manifest.py lines 98-118.  Note the source calls
segment_video(show['file_path'], segment_length): segment_length is passed
in the duration position and segment_video's own segment_length keeps its
default 420.  segments[-1] on an empty list raises IndexError. -/
def build_show_segments (sh : ShowAsset) (segment_length : ℚ)
    (skip_ad_if_last_leq : ℚ) : Except RunError (List Segment × List ℕ) :=
  match segment_video sh.file_path segment_length 420 with
  | none => Except.error RunError.nonTermination
  | some segments =>
    if segments.isEmpty then Except.error RunError.indexError
    else
      Except.ok (segments,
        (List.range (segments.length - 1)).filter
          (fun i => decide (((i : ℚ) + 1) * segment_length <
            sh.duration - skip_ad_if_last_leq)))

/-- One line of an emitted .m3u8 manifest.  The discontinuity constructor is
the #EXT-X-DISCONTINUITY marker of the HLS format; it exists in the format
but, as proved below, is never emitted by this program. -/
inductive Line
  | extm3u
  | version (v : ℕ)
  | targetDuration (d : ℚ)
  | mediaSequence (n : ℕ)
  | extinf (d : ℚ)
  | fileref (f : SegFile)
  | discontinuity
  | endlist
deriving DecidableEq

/-- The #EXTINF/<filename> line pairs written by write_manifest's for loop. -/
def segment_lines : List Segment → List Line
  | [] => []
  | s :: rest => Line.extinf s.duration :: Line.fileref s.filename :: segment_lines rest

/-- A written per-asset manifest file: path data, the target_duration
argument, the emitted lines, and the entries they came from. -/
structure Manifest where
  output_dir : String
  base_name : String
  target_duration : ℚ
  lines : List Line
  segments : List Segment
deriving DecidableEq

/-- write_manifest from src/manifest.py lines 62-78 (pure content of the
file written). -/
def write_manifest (output_dir : String) (base_name : String)
    (segments : List Segment) (target_duration : ℚ) : Manifest :=
  { output_dir := output_dir, base_name := base_name,
    target_duration := target_duration,
    lines := [Line.extm3u, Line.version 3, Line.targetDuration target_duration,
      Line.mediaSequence 0] ++ segment_lines segments ++ [Line.endlist],
    segments := segments }

/-- The 'type' tag of a master playlist entry: 'show' or 'ad'. -/
inductive SegKind
  | showKind
  | adKind
deriving DecidableEq

/-- One dict appended to master_segments: keys filename, duration, type,
show (the origin asset id; here named origin since show is a Lean keyword). -/
structure MasterEntry where
  filename : SegFile
  duration : ℚ
  kind : SegKind
  origin : String
deriving DecidableEq

/-- One dict appended to ad_manifests: keys name, manifest, segments. -/
structure AdManifest where
  name : String
  manifest : Manifest
  segments : List Segment
deriving DecidableEq

/-- The master_segments entries contributed by inserting one ad. -/
def adEntries (am : AdManifest) : List MasterEntry :=
  am.segments.map (fun s =>
    { filename := s.filename, duration := s.duration,
      kind := SegKind.adKind, origin := am.name })

/-- The ad-processing loop of build_master_manifest (lines 133-142):
segment each ad and write its manifest. -/
def processAds (output_dir : String) (segment_length : ℚ) :
    List Ad → Except RunError (List AdManifest)
  | [] => Except.ok []
  | ad :: rest =>
    match segment_video ad.filename ad.duration segment_length with
    | none => Except.error RunError.nonTermination
    | some ad_segments =>
      match processAds output_dir segment_length rest with
      | Except.error e => Except.error e
      | Except.ok restMans =>
        Except.ok
          (⟨ad.name, write_manifest output_dir ad.name ad_segments segment_length,
            ad_segments⟩ :: restMans)

/-- The inner for-loop of build_master_manifest (lines 157-168) over the
enumerated segments of one show, threading ad_idx.  ad_idx % 0 raises
ZeroDivisionError in Python. -/
def showLoop (ad_manifests : List AdManifest) (total_ads : ℕ) (show_id : String)
    (mid_ad_positions : List ℕ) :
    List (ℕ × Segment) → ℕ → Except RunError (List MasterEntry × ℕ)
  | [], ad_idx => Except.ok ([], ad_idx)
  | (i, seg) :: rest, ad_idx =>
    if i ∈ mid_ad_positions then
      if total_ads = 0 then Except.error RunError.zeroDivisionError
      else
        match ad_manifests[ad_idx % total_ads]? with
        | none => Except.error RunError.indexError
        | some current_ad =>
          match showLoop ad_manifests total_ads show_id mid_ad_positions rest
              (ad_idx + 1) with
          | Except.error e => Except.error e
          | Except.ok (tail, final_idx) =>
            Except.ok (⟨seg.filename, seg.duration, SegKind.showKind, show_id⟩ ::
              (adEntries current_ad ++ tail), final_idx)
    else
      match showLoop ad_manifests total_ads show_id mid_ad_positions rest ad_idx with
      | Except.error e => Except.error e
      | Except.ok (tail, final_idx) =>
        Except.ok (⟨seg.filename, seg.duration, SegKind.showKind, show_id⟩ :: tail,
          final_idx)

/-- The show-processing loop of build_master_manifest (lines 145-168):
segment each show, write its manifest and accumulate master entries. -/
def processShows (output_dir : String) (segment_length : ℚ)
    (ad_manifests : List AdManifest) (total_ads : ℕ) :
    List ShowAsset → ℕ → Except RunError (List MasterEntry × List Manifest × ℕ)
  | [], ad_idx => Except.ok ([], [], ad_idx)
  | sh :: rest, ad_idx =>
    match build_show_segments sh segment_length 240 with
    | Except.error e => Except.error e
    | Except.ok (show_segments, mid_ad_positions) =>
      match showLoop ad_manifests total_ads sh.id mid_ad_positions
          show_segments.enum ad_idx with
      | Except.error e => Except.error e
      | Except.ok (entries, ad_idx2) =>
        match processShows output_dir segment_length ad_manifests total_ads
            rest ad_idx2 with
        | Except.error e => Except.error e
        | Except.ok (restEntries, restMans, ad_idx3) =>
          Except.ok (entries ++ restEntries,
            write_manifest output_dir sh.id show_segments segment_length :: restMans,
            ad_idx3)

/-- The #EXTINF/<filename> line pairs of the master playlist writer. -/
def masterEntryLines : List MasterEntry → List Line
  | [] => []
  | e :: rest => Line.extinf e.duration :: Line.fileref e.filename :: masterEntryLines rest

/-- The master_playlist.m3u8 content written at lines 180-188: note the
TARGETDURATION written is segment_length itself. -/
def master_lines_of (segment_length : ℚ) (master_segments : List MasterEntry) :
    List Line :=
  [Line.extm3u, Line.version 3, Line.targetDuration segment_length,
    Line.mediaSequence 0] ++ masterEntryLines master_segments ++ [Line.endlist]

/-- Everything build_master_manifest produces: the flattened master timeline,
the serialized master manifest, the per-show manifests (manifest_paths) and
the per-ad manifests. -/
structure MasterResult where
  master_segments : List MasterEntry
  master_manifest : List Line
  manifest_paths : List Manifest
  ad_manifests : List AdManifest
deriving DecidableEq

/-- build_master_manifest from src/manifest.py lines 120-191. -/
def build_master_manifest (output_dir : String) (videos : List ShowAsset)
    (ads : List Ad) (segment_length : ℚ) : Except RunError MasterResult :=
  match processAds output_dir segment_length ads with
  | Except.error e => Except.error e
  | Except.ok ad_manifests =>
    match processShows output_dir segment_length ad_manifests ads.length videos 0 with
    | Except.error e => Except.error e
    | Except.ok (showEntries, showMans, ad_idx) =>
      if ads.isEmpty then
        Except.ok
          { master_segments := showEntries,
            master_manifest := master_lines_of segment_length showEntries,
            manifest_paths := showMans, ad_manifests := ad_manifests }
      else
        if ads.length = 0 then Except.error RunError.zeroDivisionError
        else
          match ad_manifests[ad_idx % ads.length]? with
          | none => Except.error RunError.indexError
          | some last_ad =>
            Except.ok
              { master_segments := showEntries ++ adEntries last_ad,
                master_manifest :=
                  master_lines_of segment_length (showEntries ++ adEntries last_ad),
                manifest_paths := showMans, ad_manifests := ad_manifests }

/-- The validated configuration (load_config requires exactly these keys). -/
structure Config where
  videos : List ShowAsset
  ads : List Ad
  segment_duration_sec : ℚ
  cue_interval_sec : ℚ
  min_last_segment_sec : ℚ
deriving DecidableEq

/-- The hard-coded output directory used by main. -/
def mainOutputDir : String := "/home/ishitasinghfaujdar/pmsltask/output"

/-- main from src/manifest.py lines 193-214: reads the five config values
but passes only videos, ads and segment_duration_sec to
build_master_manifest. -/
def main_run (config : Config) : Except RunError MasterResult :=
  build_master_manifest mainOutputDir
    config.videos config.ads config.segment_duration_sec

/-- The segment list segment_video produces for an ad when the nominal
length is positive (abbreviation used in statements about successful runs). -/
def adSegmentsOf (segment_length : ℚ) (ad : Ad) : List Segment :=
  segmentLoop segment_length ad.filename
    (Int.toNat ⌈ad.duration / segment_length⌉) ad.duration 0

/-- Spec-side description of one show's master entries given an explicit
selection function sel: selection number j (0-indexed, in loop order) yields
the entries sel j inserted after the show segment whose index is a cue
position.  Used to state which ad each selection of the rotation returns. -/
def assembleWith (show_id : String) (mid_ad_positions : List ℕ) :
    List (ℕ × Segment) → (ℕ → List MasterEntry) → List MasterEntry
  | [], _ => []
  | (i, seg) :: rest, sel =>
    { filename := seg.filename, duration := seg.duration,
      kind := SegKind.showKind, origin := show_id } ::
      (if i ∈ mid_ad_positions then
        sel 0 ++ assembleWith show_id mid_ad_positions rest (fun j => sel (j + 1))
      else assembleWith show_id mid_ad_positions rest sel)

/-- The entries of the pool ad at rotation position t (pool[t mod K]). -/
def selAt (adms : List AdManifest) (t : ℕ) : List MasterEntry :=
  match adms[t % adms.length]? with
  | some a => adEntries a
  | none => []

/-- Spec-side: the largest entry duration of a playlist. -/
def maxEntryDuration (segs : List Segment) : ℚ :=
  (segDurations segs).foldr max 0

/-- Spec-side (from the spec's words, for comparison with the code):
targetDuration = smallest integer at least the maximum entry duration,
with documented default 10 for an empty entry list. -/
def specTargetDuration (segs : List Segment) : ℤ :=
  if segs.isEmpty then 10 else ⌈maxEntryDuration segs⌉

/-- Number of #EXT-X-DISCONTINUITY markers in an emitted manifest. -/
def countDiscontinuities (ls : List Line) : ℕ :=
  ls.countP (fun l => decide (l = Line.discontinuity))

/-- Spec-side: number of adjacent entry pairs whose origin asset ids differ. -/
def originChanges : List MasterEntry → ℕ
  | [] => 0
  | [_] => 0
  | a :: b :: rest =>
    (if a.origin = b.origin then 0 else 1) + originChanges (b :: rest)

/-! Concrete sample data used by witnesses and counterexamples. -/

/-- Output directory used in concrete runs. -/
def outDir : String := "out"

/-- A show of duration 1500 s (the spec's worked scenario). -/
def showA : ShowAsset := ⟨"show1", "Show One", "show1.mp4", 1500⟩

/-- A short show, duration 500 s. -/
def showB : ShowAsset := ⟨"s2", "Show Two", "f2", 500⟩

/-- A long show, duration 1600 s. -/
def showC : ShowAsset := ⟨"s1", "Show One", "f1", 1600⟩

/-- A show of duration 2000 s. -/
def showD : ShowAsset := ⟨"s3", "Show Three", "f3", 2000⟩

/-- An ad of duration 100 s. -/
def adA : Ad := ⟨"ad1", "adf", 100⟩

/-- Two concrete ad manifests forming a pool of size 2. -/
def amX : AdManifest := ⟨"a1", ⟨"o", "a1", 420, [], []⟩, [⟨⟨"a1f", 1⟩, 50⟩]⟩

/-- Second element of the concrete pool. -/
def amY : AdManifest := ⟨"a2", ⟨"o", "a2", 420, [], []⟩, [⟨⟨"a2f", 1⟩, 60⟩]⟩

/-- The concrete pool. -/
def amPool : List AdManifest := [amX, amY]

/-- A show id for the concrete rotation run. -/
def idS : String := "s1"

/-- Cue positions for the concrete rotation run. -/
def midS : List ℕ := [0, 1]

/-- Enumerated segments for the concrete rotation run. -/
def pairsS : List (ℕ × Segment) := [(0, ⟨⟨"f1", 1⟩, 420⟩), (1, ⟨⟨"f1", 2⟩, 300⟩)]

/-- A config with cue_interval_sec 420 and min_last_segment_sec 240. -/
def cfgA : Config := ⟨[showC], [adA], 420, 420, 240⟩

/-- Same as cfgA except cue_interval_sec and min_last_segment_sec. -/
def cfgB : Config := ⟨[showC], [adA], 420, 999, 7⟩

/-- The master timeline produced by the run over [showC, showB] with pool
[adA] at segment_length 420. -/
def sampleEntries : List MasterEntry :=
  [⟨⟨showC.file_path, 1⟩, 420, SegKind.showKind, showC.id⟩,
   ⟨⟨showB.file_path, 1⟩, 420, SegKind.showKind, showB.id⟩,
   ⟨⟨adA.filename, 1⟩, adA.duration, SegKind.adKind, adA.name⟩]

/-- The full result of the run over [showC, showB] with pool [adA] at
segment_length 420. -/
def sampleRun : MasterResult :=
  ⟨sampleEntries, master_lines_of 420 sampleEntries,
   [write_manifest outDir showC.id [⟨⟨showC.file_path, 1⟩, 420⟩] 420,
    write_manifest outDir showB.id [⟨⟨showB.file_path, 1⟩, 420⟩] 420],
   [⟨adA.name, write_manifest outDir adA.name (adSegmentsOf 420 adA) 420,
     adSegmentsOf 420 adA⟩]⟩

section Helpers

lemma segmentLoop_nonpos (L : ℚ) (base : String) (fuel k : ℕ) {rem : ℚ}
    (h : rem ≤ 0) : segmentLoop L base fuel rem k = [] := by
  cases fuel with
  | zero => rfl
  | succ n =>
    simp only [segmentLoop]
    rw [if_neg (not_lt.mpr h)]

lemma ceil_one_of_le {rem L : ℚ} (hL : 0 < L) (h0 : 0 < rem) (h1 : rem ≤ L) :
    ⌈rem / L⌉ = 1 := by
  have hle : ⌈rem / L⌉ ≤ 1 := by
    rw [Int.ceil_le]
    push_cast
    exact (div_le_one hL).mpr h1
  have hpos : 0 < ⌈rem / L⌉ := Int.ceil_pos.mpr (div_pos h0 hL)
  omega

lemma ceil_two_le {rem L : ℚ} (hL : 0 < L) (h : L < rem) : 2 ≤ ⌈rem / L⌉ := by
  have h1 : (1 : ℚ) < rem / L := (one_lt_div hL).mpr h
  have : (1 : ℤ) < ⌈rem / L⌉ := by
    rw [Int.lt_ceil]
    push_cast
    exact h1
  omega

lemma ceil_sub_self {rem L : ℚ} (hL : 0 < L) :
    ⌈(rem - L) / L⌉ = ⌈rem / L⌉ - 1 := by
  rw [sub_div, div_self hL.ne']
  have := Int.ceil_sub_int (rem / L) 1
  push_cast at this
  exact this

lemma nonpos_of_ceil_div {rem L : ℚ} (hL : 0 < L)
    (h : Int.toNat ⌈rem / L⌉ = 0) : rem ≤ 0 := by
  by_contra hpos
  have : 0 < ⌈rem / L⌉ := Int.ceil_pos.mpr (div_pos (not_le.mp hpos) hL)
  omega

lemma segmentLoop_fuel (L : ℚ) (base : String) (hL : 0 < L) :
    ∀ f1 f2 (rem : ℚ) (k : ℕ), Int.toNat ⌈rem / L⌉ ≤ f1 →
      Int.toNat ⌈rem / L⌉ ≤ f2 →
      segmentLoop L base f1 rem k = segmentLoop L base f2 rem k := by
  intro f1
  induction f1 with
  | zero =>
    intro f2 rem k h1 _
    have hr : rem ≤ 0 := nonpos_of_ceil_div hL (Nat.le_zero.mp h1)
    rw [segmentLoop_nonpos L base 0 k hr, segmentLoop_nonpos L base f2 k hr]
  | succ n ih =>
    intro f2 rem k h1 h2
    by_cases hr : rem ≤ 0
    · rw [segmentLoop_nonpos L base _ k hr, segmentLoop_nonpos L base f2 k hr]
    · have h0 : 0 < rem := not_le.mp hr
      have hc1 : 0 < ⌈rem / L⌉ := Int.ceil_pos.mpr (div_pos h0 hL)
      obtain ⟨m, rfl⟩ : ∃ m, f2 = m + 1 := by
        cases f2 with
        | zero => exact absurd (nonpos_of_ceil_div hL (Nat.le_zero.mp h2)) hr
        | succ m => exact ⟨m, rfl⟩
      simp only [segmentLoop]
      rw [if_pos h0, if_pos h0]
      by_cases hcase : rem ≤ L
      · have : rem - min L rem = 0 := by
          rw [min_eq_right hcase]
          ring
        rw [this, segmentLoop_nonpos L base n _ le_rfl,
          segmentLoop_nonpos L base m _ le_rfl]
      · have hlt : L < rem := not_le.mp hcase
        have hmin : min L rem = L := min_eq_left hlt.le
        have hsub : ⌈(rem - L) / L⌉ = ⌈rem / L⌉ - 1 := ceil_sub_self hL
        have h2c : 2 ≤ ⌈rem / L⌉ := ceil_two_le hL hlt
        rw [hmin, ih m (rem - L) (k + 1) (by rw [hsub]; omega) (by rw [hsub]; omega)]

lemma segmentLoop_spec (L : ℚ) (base : String) (hL : 0 < L) :
    ∀ fuel (rem : ℚ) (k : ℕ), 0 < rem → Int.toNat ⌈rem / L⌉ ≤ fuel →
      (segmentLoop L base fuel rem k).length = Int.toNat ⌈rem / L⌉ ∧
      (segDurations (segmentLoop L base fuel rem k)).sum = rem ∧
      (∀ d ∈ (segDurations (segmentLoop L base fuel rem k)).dropLast, d = L) ∧
      (segDurations (segmentLoop L base fuel rem k)).getLast? =
        some (rem - ((⌈rem / L⌉ - 1 : ℤ) : ℚ) * L) := by
  intro fuel
  induction fuel with
  | zero =>
    intro rem k h0 hf
    exact absurd (nonpos_of_ceil_div hL (Nat.le_zero.mp hf)) (not_le.mpr h0)
  | succ n ih =>
    intro rem k h0 hf
    have hunf : segmentLoop L base (n + 1) rem k =
        { filename := { base := base, num := k + 1 },
          duration := min L rem } ::
          segmentLoop L base n (rem - min L rem) (k + 1) := by
      simp only [segmentLoop]
      rw [if_pos h0]
    by_cases hcase : rem ≤ L
    · have hmin : min L rem = rem := min_eq_right hcase
      have hzero : rem - min L rem = 0 := by rw [hmin]; ring
      have htail : segmentLoop L base n (rem - min L rem) (k + 1) = [] :=
        segmentLoop_nonpos L base n (k + 1) (by rw [hzero])
      have hc : ⌈rem / L⌉ = 1 := ceil_one_of_le hL h0 hcase
      rw [hunf, htail, hmin, hc]
      refine ⟨rfl, by simp [segDurations], by simp [segDurations], ?_⟩
      simp [segDurations]
    · have hlt : L < rem := not_le.mp hcase
      have hmin : min L rem = L := min_eq_left hlt.le
      have h0' : 0 < rem - L := by linarith
      have hsub : ⌈(rem - L) / L⌉ = ⌈rem / L⌉ - 1 := ceil_sub_self hL
      have h2c : 2 ≤ ⌈rem / L⌉ := ceil_two_le hL hlt
      have hf' : Int.toNat ⌈(rem - L) / L⌉ ≤ n := by
        rw [hsub]
        omega
      obtain ⟨ihlen, ihsum, ihdrop, ihlast⟩ := ih (rem - L) (k + 1) h0' hf'
      rw [hunf, hmin]
      set tail := segmentLoop L base n (rem - L) (k + 1) with htail
      have htne : segDurations tail ≠ [] := by
        have : (segDurations tail).length = Int.toNat ⌈(rem - L) / L⌉ := by
          simpa [segDurations] using ihlen
        intro hnil
        rw [hnil] at this
        simp at this
        omega
      obtain ⟨d0, ds, hds⟩ : ∃ d0 ds, segDurations tail = d0 :: ds := by
        cases hx : segDurations tail with
        | nil => exact absurd hx htne
        | cons d0 ds => exact ⟨d0, ds, rfl⟩
      have hsegcons :
          segDurations
            ({ filename := { base := base, num := k + 1 }, duration := L } :: tail) =
            L :: segDurations tail := by
        simp [segDurations]
      refine ⟨?_, ?_, ?_, ?_⟩
      · have : tail.length = Int.toNat ⌈(rem - L) / L⌉ := ihlen
        simp only [List.length_cons, this, hsub]
        omega
      · rw [hsegcons, List.sum_cons, ihsum]
        ring
      · rw [hsegcons, hds]
        intro d hd
        rw [List.dropLast_cons₂] at hd
        rcases List.mem_cons.mp hd with h | h
        · exact h
        · exact ihdrop d (by rw [hds]; exact h)
      · rw [hsegcons, hds, List.getLast?_cons_cons, ← hds, ihlast, hsub]
        congr 1
        push_cast
        ring

lemma segment_video_pos (filename : String) (D L : ℚ) (hL : 0 < L) :
    segment_video filename D L =
      some (segmentLoop L filename (Int.toNat ⌈D / L⌉) D 0) := by
  unfold segment_video
  rw [if_neg (by rintro ⟨_, h⟩; exact absurd h (not_le.mpr hL))]

lemma segment_video_single (f : String) (D L : ℚ) (h0 : 0 < D) (hDL : D ≤ L) :
    segment_video f D L = some [{ filename := { base := f, num := 1 }, duration := D }] := by
  have hL : 0 < L := lt_of_lt_of_le h0 hDL
  rw [segment_video_pos f D L hL, ceil_one_of_le hL h0 hDL]
  have hstop : segmentLoop L f 0 (D - min L D) 1 = [] := rfl
  simp [segmentLoop, h0, min_eq_right hDL]

lemma adSegmentsOf_single (L : ℚ) (ad : Ad) (h0 : 0 < ad.duration)
    (hle : ad.duration ≤ L) :
    adSegmentsOf L ad =
      [{ filename := { base := ad.filename, num := 1 }, duration := ad.duration }] := by
  have hL : 0 < L := lt_of_lt_of_le h0 hle
  have h1 := segment_video_single ad.filename ad.duration L h0 hle
  rw [segment_video_pos ad.filename ad.duration L hL] at h1
  exact Option.some.inj h1

lemma build_show_segments_single (sh : ShowAsset) (L T : ℚ) (h0 : 0 < L)
    (h420 : L ≤ 420) :
    build_show_segments sh L T =
      Except.ok ([{ filename := { base := sh.file_path, num := 1 }, duration := L }],
        []) := by
  unfold build_show_segments
  rw [segment_video_single sh.file_path L 420 h0 h420]
  simp

lemma build_show_segments_nonpos (sh : ShowAsset) (L T : ℚ) (hL : L ≤ 0) :
    build_show_segments sh L T = Except.error RunError.indexError := by
  unfold build_show_segments
  have hsv : segment_video sh.file_path L 420 = some [] := by
    unfold segment_video
    rw [if_neg (by rintro ⟨h, _⟩; exact absurd h (not_lt.mpr hL))]
    rw [segmentLoop_nonpos 420 sh.file_path _ 0 hL]
  rw [hsv]
  simp

lemma processAds_pos (od : String) (L : ℚ) (hL : 0 < L) :
    ∀ ads : List Ad, processAds od L ads =
      Except.ok (ads.map (fun ad =>
        ⟨ad.name, write_manifest od ad.name (adSegmentsOf L ad) L,
          adSegmentsOf L ad⟩)) := by
  intro ads
  induction ads with
  | nil => rfl
  | cons a rest ih =>
    unfold processAds
    rw [segment_video_pos a.filename a.duration L hL, ih]
    rfl

lemma processAds_length (od : String) (L : ℚ) :
    ∀ (ads : List Ad) (adms : List AdManifest),
      processAds od L ads = Except.ok adms → adms.length = ads.length := by
  intro ads
  induction ads with
  | nil =>
    intro adms h
    cases h
    rfl
  | cons a rest ih =>
    intro adms h
    unfold processAds at h
    cases hsv : segment_video a.filename a.duration L with
    | none => rw [hsv] at h; cases h
    | some segs =>
      rw [hsv] at h
      cases hr : processAds od L rest with
      | error e => rw [hr] at h; cases h
      | ok restMans =>
        rw [hr] at h
        cases h
        simp [ih restMans hr]

lemma processAds_nonpos (od : String) (L : ℚ) (hL : L ≤ 0) :
    ∀ ads : List Ad, (∃ a ∈ ads, 0 < a.duration) →
      processAds od L ads = Except.error RunError.nonTermination := by
  intro ads
  induction ads with
  | nil =>
    rintro ⟨a, ha, _⟩
    cases ha
  | cons a rest ih =>
    rintro ⟨b, hb, hbpos⟩
    unfold processAds
    by_cases ha : 0 < a.duration
    · rw [show segment_video a.filename a.duration L = none from by
        unfold segment_video
        rw [if_pos ⟨ha, hL⟩]]
    · have hsv : segment_video a.filename a.duration L =
          some (segmentLoop L a.filename
            (Int.toNat ⌈a.duration / L⌉) a.duration 0) := by
        unfold segment_video
        rw [if_neg (by rintro ⟨h, _⟩; exact absurd h ha)]
      rw [hsv]
      have hbrest : b ∈ rest := by
        rcases List.mem_cons.mp hb with h | h
        · exact absurd (h ▸ hbpos) ha
        · exact h
      rw [ih ⟨b, hbrest, hbpos⟩]

lemma showLoop_no_mid (adms : List AdManifest) (K : ℕ) (sid : String) :
    ∀ (pairs : List (ℕ × Segment)) (v : ℕ),
      showLoop adms K sid [] pairs v =
        Except.ok (pairs.map (fun p =>
          ⟨p.2.filename, p.2.duration, SegKind.showKind, sid⟩), v) := by
  intro pairs
  induction pairs with
  | nil => intro v; rfl
  | cons p rest ih =>
    intro v
    obtain ⟨i, seg⟩ := p
    simp [showLoop, ih v]

lemma processShows_L420 (od : String) (L : ℚ) (adms : List AdManifest) (K : ℕ)
    (h0 : 0 < L) (h420 : L ≤ 420) :
    ∀ (videos : List ShowAsset) (v : ℕ),
      processShows od L adms K videos v =
        Except.ok (videos.map (fun sh =>
            ⟨{ base := sh.file_path, num := 1 }, L, SegKind.showKind, sh.id⟩),
          videos.map (fun sh =>
            write_manifest od sh.id
              [{ filename := { base := sh.file_path, num := 1 }, duration := L }] L),
          v) := by
  intro videos
  induction videos with
  | nil => intro v; rfl
  | cons sh rest ih =>
    intro v
    have henum :
        ([{ filename := { base := sh.file_path, num := 1 }, duration := L }] :
          List Segment).enum =
        [(0, { filename := { base := sh.file_path, num := 1 }, duration := L })] := rfl
    simp only [processShows, build_show_segments_single sh L 240 h0 h420, henum,
      showLoop_no_mid adms K sh.id _ v, ih v]
    rfl

lemma showLoop_zero (adms : List AdManifest) (sid : String) (mid : List ℕ) :
    ∀ (pairs : List (ℕ × Segment)) (v : ℕ) (E : List MasterEntry) (v' : ℕ),
      showLoop adms 0 sid mid pairs v = Except.ok (E, v') →
        E.countP (fun e => decide (e.kind = SegKind.adKind)) = 0 := by
  intro pairs
  induction pairs with
  | nil =>
    intro v E v' h
    cases h
    rfl
  | cons p rest ih =>
    intro v E v' h
    obtain ⟨i, seg⟩ := p
    by_cases hm : i ∈ mid
    · simp [showLoop, hm] at h
    · simp only [showLoop, if_neg hm] at h
      cases hr : showLoop adms 0 sid mid rest v with
      | error e =>
        simp only [hr] at h
        cases h
      | ok tf =>
        obtain ⟨tail, fi⟩ := tf
        simp only [hr] at h
        cases h
        have h0 := ih v tail _ hr
        rw [List.countP_cons, h0]
        simp

lemma processShows_zero (od : String) (L : ℚ) (adms : List AdManifest) :
    ∀ (videos : List ShowAsset) (v : ℕ) (E : List MasterEntry)
      (M : List Manifest) (v' : ℕ),
      processShows od L adms 0 videos v = Except.ok (E, M, v') →
        E.countP (fun e => decide (e.kind = SegKind.adKind)) = 0 := by
  intro videos
  induction videos with
  | nil =>
    intro v E M v' h
    cases h
    rfl
  | cons sh rest ih =>
    intro v E M v' h
    cases hb : build_show_segments sh L 240 with
    | error e =>
      simp only [processShows, hb] at h
      cases h
    | ok sm =>
      obtain ⟨segs, mid⟩ := sm
      simp only [processShows, hb] at h
      cases hl : showLoop adms 0 sh.id mid segs.enum v with
      | error e =>
        simp only [hl] at h
        cases h
      | ok ef =>
        obtain ⟨entries, idx2⟩ := ef
        simp only [hl] at h
        cases hp : processShows od L adms 0 rest idx2 with
        | error e =>
          simp only [hp] at h
          cases h
        | ok rmr =>
          obtain ⟨restE, restM, idx3⟩ := rmr
          simp only [hp] at h
          cases h
          rw [List.countP_append,
            showLoop_zero adms sh.id mid segs.enum v entries idx2 hl,
            ih idx2 restE restM _ hp]

lemma showLoop_assemble (adms : List AdManifest) (hpos : 0 < adms.length)
    (sid : String) (mid : List ℕ) :
    ∀ (pairs : List (ℕ × Segment)) (v : ℕ),
      showLoop adms adms.length sid mid pairs v =
        Except.ok (assembleWith sid mid pairs (fun j => selAt adms (v + j)),
          v + pairs.countP (fun p => decide (p.1 ∈ mid))) := by
  intro pairs
  induction pairs with
  | nil => intro v; simp [showLoop, assembleWith]
  | cons p rest ih =>
    intro v
    obtain ⟨i, seg⟩ := p
    by_cases hm : i ∈ mid
    · have hKne : adms.length ≠ 0 := Nat.pos_iff_ne_zero.mp hpos
      have hlt : v % adms.length < adms.length := Nat.mod_lt _ hpos
      have hget : adms[v % adms.length]? = some (adms.get ⟨v % adms.length, hlt⟩) := by
        rw [List.getElem?_eq_getElem hlt]
        rfl
      have hsel0 : selAt adms (v + 0) = adEntries (adms.get ⟨v % adms.length, hlt⟩) := by
        unfold selAt
        rw [Nat.add_zero, hget]
      have hshift : (fun j => selAt adms (v + 1 + j)) =
          (fun j => selAt adms (v + (j + 1))) := by
        funext j
        congr 1
        omega
      simp only [showLoop, if_pos hm, if_neg hKne, hget, ih (v + 1), hshift,
        assembleWith, List.countP_cons, hm, hsel0, Except.ok.injEq, Prod.mk.injEq]
      simp only [if_true, decide_True, Except.ok.injEq, Prod.mk.injEq]
      refine ⟨trivial, ?_⟩
      omega
    · simp only [showLoop, if_neg hm, ih v, assembleWith, List.countP_cons,
        Except.ok.injEq, Prod.mk.injEq]
      refine ⟨trivial, ?_⟩
      simp [hm]

lemma segment_lines_no_disc (segs : List Segment) :
    ∀ l ∈ segment_lines segs, l ≠ Line.discontinuity := by
  induction segs with
  | nil =>
    intro l hl
    cases hl
  | cons s rest ih =>
    intro l hl
    unfold segment_lines at hl
    rcases List.mem_cons.mp hl with rfl | hl
    · intro hc
      cases hc
    · rcases List.mem_cons.mp hl with rfl | hl
      · intro hc
        cases hc
      · exact ih l hl

lemma count_segment_lines (segs : List Segment) :
    countDiscontinuities (segment_lines segs) = 0 := by
  unfold countDiscontinuities
  rw [List.countP_eq_zero]
  intro l hl
  simpa using segment_lines_no_disc segs l hl

lemma master_entry_lines_no_disc (ms : List MasterEntry) :
    ∀ l ∈ masterEntryLines ms, l ≠ Line.discontinuity := by
  induction ms with
  | nil =>
    intro l hl
    cases hl
  | cons e rest ih =>
    intro l hl
    unfold masterEntryLines at hl
    rcases List.mem_cons.mp hl with rfl | hl
    · intro hc
      cases hc
    · rcases List.mem_cons.mp hl with rfl | hl
      · intro hc
        cases hc
      · exact ih l hl

lemma count_master_entry_lines (ms : List MasterEntry) :
    countDiscontinuities (masterEntryLines ms) = 0 := by
  unfold countDiscontinuities
  rw [List.countP_eq_zero]
  intro l hl
  simpa using master_entry_lines_no_disc ms l hl

lemma count_write_manifest (od bn : String) (segs : List Segment) (t : ℚ) :
    countDiscontinuities (write_manifest od bn segs t).lines = 0 := by
  have h1 := count_segment_lines segs
  unfold write_manifest countDiscontinuities at h1 ⊢
  simp [List.countP_append, List.countP_cons, h1]

lemma count_master_lines (L : ℚ) (ms : List MasterEntry) :
    countDiscontinuities (master_lines_of L ms) = 0 := by
  have h1 := count_master_entry_lines ms
  unfold master_lines_of countDiscontinuities at h1 ⊢
  simp [List.countP_append, List.countP_cons, h1]

lemma processAds_targets (od : String) (L : ℚ) :
    ∀ (ads : List Ad) (adms : List AdManifest),
      processAds od L ads = Except.ok adms →
        ∀ am ∈ adms, am.manifest.target_duration = L := by
  intro ads
  induction ads with
  | nil =>
    intro adms h
    cases h
    intro am ham
    cases ham
  | cons a rest ih =>
    intro adms h
    unfold processAds at h
    cases hsv : segment_video a.filename a.duration L with
    | none =>
      rw [hsv] at h
      cases h
    | some segs =>
      rw [hsv] at h
      cases hr : processAds od L rest with
      | error e =>
        rw [hr] at h
        cases h
      | ok restMans =>
        rw [hr] at h
        cases h
        intro am ham
        rcases List.mem_cons.mp ham with rfl | ham
        · rfl
        · exact ih restMans hr am ham

lemma processShows_targets (od : String) (L : ℚ) (adms : List AdManifest) (K : ℕ) :
    ∀ (videos : List ShowAsset) (v : ℕ) (E : List MasterEntry)
      (M : List Manifest) (v' : ℕ),
      processShows od L adms K videos v = Except.ok (E, M, v') →
        ∀ m ∈ M, m.target_duration = L := by
  intro videos
  induction videos with
  | nil =>
    intro v E M v' h
    cases h
    intro m hm
    cases hm
  | cons sh rest ih =>
    intro v E M v' h
    cases hb : build_show_segments sh L 240 with
    | error e =>
      simp only [processShows, hb] at h
      cases h
    | ok sm =>
      obtain ⟨segs, mid⟩ := sm
      simp only [processShows, hb] at h
      cases hl : showLoop adms K sh.id mid segs.enum v with
      | error e =>
        simp only [hl] at h
        cases h
      | ok ef =>
        obtain ⟨entries, idx2⟩ := ef
        simp only [hl] at h
        cases hp : processShows od L adms K rest idx2 with
        | error e =>
          simp only [hp] at h
          cases h
        | ok rmr =>
          obtain ⟨restE, restM, idx3⟩ := rmr
          simp only [hp] at h
          cases h
          intro m hm
          rcases List.mem_cons.mp hm with rfl | hm
          · rfl
          · exact ih idx2 restE restM _ hp m hm

lemma adA_segments : adSegmentsOf 420 adA = [⟨⟨adA.filename, 1⟩, adA.duration⟩] := by
  have h := adSegmentsOf_single 420 adA (by norm_num [adA]) (by norm_num [adA])
  exact h

lemma build_sampleRun :
    build_master_manifest outDir [showC, showB] [adA] 420 = Except.ok sampleRun := by
  have hads : processAds outDir 420 [adA] =
      Except.ok [⟨adA.name, write_manifest outDir adA.name (adSegmentsOf 420 adA) 420,
        adSegmentsOf 420 adA⟩] := by
    rw [processAds_pos outDir 420 (by norm_num)]
    rfl
  have hsh := processShows_L420 outDir 420
    [⟨adA.name, write_manifest outDir adA.name (adSegmentsOf 420 adA) 420,
      adSegmentsOf 420 adA⟩] 1 (by norm_num) (by norm_num) [showC, showB] 0
  simp only [build_master_manifest, hads, List.length_cons, List.length_nil, hsh,
    List.isEmpty_cons, Bool.false_eq_true, if_false, List.map_cons, List.map_nil,
    Nat.zero_mod, List.getElem?_cons_zero]
  simp only [show (0 + 1 = 0) = False by simp, if_false]
  unfold sampleRun sampleEntries
  rw [adA_segments]
  rfl

end Helpers

/-! The claims. -/

/-- C1: for every duration D > 0 and nominal length L > 0,
segment_video(filename, D, L) succeeds and returns segments whose durations
sum to D exactly (hence within tolerance 1e-6), in which every duration but
the last equals L, the last equals D mod L (that is, D - L*floor(D/L)) or L
when that remainder is zero, and the segment count is the ceiling of D/L. -/
theorem segment_video_c1 (filename : String) (D L : ℚ) (hD : 0 < D) (hL : 0 < L) :
    ∃ segs, segment_video filename D L = some segs ∧
      (segDurations segs).sum = D ∧
      |(segDurations segs).sum - D| ≤ 1 / 1000000 ∧
      (∀ d ∈ (segDurations segs).dropLast, d = L) ∧
      (segDurations segs).getLast? =
        some (if D - L * ⌊D / L⌋ = 0 then L else D - L * ⌊D / L⌋) ∧
      segs.length = Int.toNat ⌈D / L⌉ := by
  obtain ⟨hlen, hsum, hdrop, hlast⟩ :=
    segmentLoop_spec L filename hL (Int.toNat ⌈D / L⌉) D 0 hD le_rfl
  refine ⟨_, segment_video_pos filename D L hL, hsum, ?_, hdrop, ?_, hlen⟩
  · rw [hsum, sub_self, abs_zero]
    norm_num
  · rw [hlast]
    congr 1
    by_cases h0 : D - L * ⌊D / L⌋ = 0
    · rw [if_pos h0]
      have hDeq : D = L * ((⌊D / L⌋ : ℤ) : ℚ) := by linarith
      have hdiv : D / L = ((⌊D / L⌋ : ℤ) : ℚ) := by
        rw [eq_comm, eq_div_iff hL.ne']
        linarith
      have hceil : ⌈D / L⌉ = ⌊D / L⌋ := by
        conv_lhs => rw [hdiv]
        exact Int.ceil_intCast _
      rw [hceil]
      push_cast
      linarith [hDeq]
    · rw [if_neg h0]
      have hne : D / L ≠ ((⌊D / L⌋ : ℤ) : ℚ) := by
        intro he
        apply h0
        have hDeq : D = ((⌊D / L⌋ : ℤ) : ℚ) * L := (div_eq_iff hL.ne').mp he
        linarith
      have hflt : ((⌊D / L⌋ : ℤ) : ℚ) < D / L :=
        lt_of_le_of_ne (Int.floor_le _) (Ne.symm hne)
      have hlow : ⌊D / L⌋ < ⌈D / L⌉ := by
        have h1 : ((⌊D / L⌋ : ℤ) : ℚ) < ((⌈D / L⌉ : ℤ) : ℚ) :=
          lt_of_lt_of_le hflt (Int.le_ceil _)
        exact_mod_cast h1
      have hceil : ⌈D / L⌉ = ⌊D / L⌋ + 1 :=
        le_antisymm (Int.ceil_le_floor_add_one _) (by omega)
      rw [hceil]
      push_cast
      ring

/-- C1 witness at D = 1500, L = 420: four segments [420, 420, 420, 240]. -/
theorem segment_video_c1_witness :
    (0 : ℚ) < 1500 ∧ (0 : ℚ) < 420 ∧
      ∃ segs, segment_video showA.file_path 1500 420 = some segs ∧
        (segDurations segs).sum = 1500 ∧
        |(segDurations segs).sum - 1500| ≤ 1 / 1000000 ∧
        (∀ d ∈ (segDurations segs).dropLast, d = 420) ∧
        (segDurations segs).getLast? =
          some (if (1500 : ℚ) - 420 * (⌊(1500 : ℚ) / 420⌋ : ℚ) = 0 then (420 : ℚ)
            else 1500 - 420 * (⌊(1500 : ℚ) / 420⌋ : ℚ)) ∧
        segs.length = Int.toNat ⌈(1500 : ℚ) / 420⌉ :=
  ⟨by norm_num, by norm_num,
    segment_video_c1 showA.file_path 1500 420 (by norm_num) (by norm_num)⟩

/-- C2: code bug.  The claim requires that for a show of duration D cut at
nominal length L with threshold T, the boundary after segment i is a legal
cue iff i ≤ N - 2 and (i+1)L < D - T, with N = ceil(D/L) segments.  At
D = 1500, L = 420, T = 240 this makes N = 4 and boundary 0 legal (420 < 1260),
as in the spec's worked scenario (cues {0,1}).  The code passes the nominal
length in segment_video's duration position, so it produces one segment of
duration 420 and reports no cue point at all. -/
theorem c2_cue_points_code_bug :
    build_show_segments showA 420 240 =
      Except.ok ([{ filename := { base := showA.file_path, num := 1 }, duration := 420 }],
        []) ∧
    (0 : ℕ) ≤ Int.toNat ⌈(1500 : ℚ) / 420⌉ - 2 ∧
    ((0 : ℚ) + 1) * 420 < 1500 - 240 ∧
    (0 : ℕ) ∉ ([] : List ℕ) := by
  refine ⟨build_show_segments_single showA 420 240 (by norm_num) (by norm_num),
    ?_, by norm_num, by simp⟩
  omega

/-- C3 counterexample: two shows with a non-empty pool.  The claim says one
ad is drawn per show and placed mid-show or directly after that show's
segments, which with the batch trailer of C4 yields at least two ad blocks
here; the code's timeline is both shows' single segments followed by one ad
block only (the trailer), and only one ad entry exists in total, so no ad was
drawn for either show. -/
theorem c3_counterexample :
    ∃ r, build_master_manifest outDir [showC, showB] [adA] 420 = Except.ok r ∧
      r.master_segments =
        [⟨⟨showC.file_path, 1⟩, 420, SegKind.showKind, showC.id⟩,
         ⟨⟨showB.file_path, 1⟩, 420, SegKind.showKind, showB.id⟩,
         ⟨⟨adA.filename, 1⟩, adA.duration, SegKind.adKind, adA.name⟩] ∧
      r.master_segments.countP (fun e => decide (e.kind = SegKind.adKind)) = 1 ∧
      ¬ 2 ≤ r.master_segments.countP (fun e => decide (e.kind = SegKind.adKind)) := by
  refine ⟨sampleRun, build_sampleRun, rfl, rfl, by decide⟩

/-- C3 corrected: there is no per-show ad draw and no per-show deferred
append; for 0 < L ≤ 420 every show's cue list is empty, so with a non-empty
pool the whole batch timeline is all shows' own segments followed by the
single trailing ad block pool[0]. -/
theorem c3_no_per_show_ad (od : String) (videos : List ShowAsset) (a : Ad)
    (ads : List Ad) (L : ℚ) (h0 : 0 < L) (h420 : L ≤ 420) :
    ∃ r, build_master_manifest od videos (a :: ads) L = Except.ok r ∧
      r.master_segments =
        videos.map (fun sh =>
          ⟨{ base := sh.file_path, num := 1 }, L, SegKind.showKind, sh.id⟩) ++
        adEntries ⟨a.name, write_manifest od a.name (adSegmentsOf L a) L,
          adSegmentsOf L a⟩ := by
  simp only [build_master_manifest, processAds_pos od L h0, List.map_cons,
    processShows_L420 od L _ _ h0 h420, List.isEmpty_cons, Bool.false_eq_true,
    if_false, List.length_cons, Nat.zero_mod, List.getElem?_cons_zero]
  simp only [show (ads.length + 1 = 0) = False by simp, if_false]
  exact ⟨_, rfl, rfl⟩

/-- C3 witness for the corrected claim: the concrete two-show, one-ad run. -/
theorem c3_no_per_show_ad_witness :
    (0 : ℚ) < 420 ∧ (420 : ℚ) ≤ 420 ∧
      ∃ r, build_master_manifest outDir [showC, showB] (adA :: []) 420 = Except.ok r ∧
        r.master_segments =
          [showC, showB].map (fun sh =>
            ⟨{ base := sh.file_path, num := 1 }, 420, SegKind.showKind, sh.id⟩) ++
          adEntries ⟨adA.name, write_manifest outDir adA.name (adSegmentsOf 420 adA) 420,
            adSegmentsOf 420 adA⟩ :=
  ⟨by norm_num, by norm_num,
    c3_no_per_show_ad outDir [showC, showB] adA [] 420 (by norm_num) (by norm_num)⟩

/-- C4: on every completed run, with a non-empty ad pool the master timeline
is exactly the show-loop entries followed by one trailing ad block selected
at the cycler's final index (continuing the sequence of selections made
during the shows); with an empty pool no ad entry appears anywhere. -/
theorem c4_trailing_ad (od : String) (videos : List ShowAsset) (ads : List Ad)
    (L : ℚ) (r : MasterResult)
    (h : build_master_manifest od videos ads L = Except.ok r) :
    (ads = [] →
      r.master_segments.countP (fun e => decide (e.kind = SegKind.adKind)) = 0) ∧
    (ads ≠ [] → ∃ body mans idx,
      processShows od L r.ad_manifests ads.length videos 0 =
        Except.ok (body, mans, idx) ∧
      r.master_segments = body ++ selAt r.ad_manifests idx ∧
      r.ad_manifests.length = ads.length) := by
  cases hpa : processAds od L ads with
  | error e =>
    simp only [build_master_manifest, hpa] at h
    cases h
  | ok adms =>
    simp only [build_master_manifest, hpa] at h
    cases hps : processShows od L adms ads.length videos 0 with
    | error e =>
      simp only [hps] at h
      cases h
    | ok smr =>
      obtain ⟨sE, sM, idx⟩ := smr
      simp only [hps] at h
      cases ads with
      | nil =>
        simp only [List.isEmpty_nil, if_true] at h
        cases h
        constructor
        · intro _
          exact processShows_zero od L adms videos 0 sE sM idx hps
        · intro hne
          exact absurd rfl hne
      | cons a as =>
        have hlen : adms.length = as.length + 1 := by
          rw [processAds_length od L (a :: as) adms hpa]
          rfl
        have hlt : idx % (as.length + 1) < adms.length := by
          rw [hlen]
          exact Nat.mod_lt _ (Nat.succ_pos _)
        have hget : adms[idx % (as.length + 1)]? = some adms[idx % (as.length + 1)] :=
          List.getElem?_eq_getElem hlt
        simp only [List.isEmpty_cons, Bool.false_eq_true, if_false, List.length_cons,
          show (as.length + 1 = 0) = False by simp, hget] at h
        cases h
        constructor
        · intro heq
          cases heq
        · intro _
          refine ⟨sE, sM, idx, hps, ?_, hlen⟩
          simp only [selAt, hlen, List.length_cons, hget]

/-- C4 witness: a one-show, empty-pool run completes with zero ad entries. -/
theorem c4_trailing_ad_witness :
    ∃ r, build_master_manifest outDir [showC] [] 420 = Except.ok r ∧
      r.master_segments.countP (fun e => decide (e.kind = SegKind.adKind)) = 0 := by
  have hrun : build_master_manifest outDir [showC] [] 420 =
      Except.ok
        { master_segments := [⟨{ base := showC.file_path, num := 1 }, 420,
            SegKind.showKind, showC.id⟩],
          master_manifest := master_lines_of 420 [⟨{ base := showC.file_path, num := 1 },
            420, SegKind.showKind, showC.id⟩],
          manifest_paths := [write_manifest outDir showC.id
            [{ filename := { base := showC.file_path, num := 1 }, duration := 420 }] 420],
          ad_manifests := [] } := by
    simp only [build_master_manifest, processAds_pos outDir 420 (by norm_num),
      List.map_nil, processShows_L420 outDir 420 [] _ (by norm_num) (by norm_num),
      List.map_cons, List.isEmpty_nil, if_true]
  refine ⟨_, hrun, (c4_trailing_ad outDir [showC] [] 420 _ hrun).1 rfl⟩

/-- C5: the rotation discipline: running the master loop from counter v, the
j-th ad selection (0-indexed, in encounter order) inserts the entries of
pool[(v + j) mod K], and the counter advances by exactly one per selection;
with v = 0 the i-th selection returns pool[i mod K]. -/
theorem c5_rotation (adms : List AdManifest) (hpos : 0 < adms.length)
    (sid : String) (mid : List ℕ) (pairs : List (ℕ × Segment)) (v : ℕ) :
    showLoop adms adms.length sid mid pairs v =
      Except.ok (assembleWith sid mid pairs (fun j => selAt adms (v + j)),
        v + pairs.countP (fun p => decide (p.1 ∈ mid))) :=
  showLoop_assemble adms hpos sid mid pairs v

/-- C5 witness: pool of size 2, two cue hits, starting at counter 0. -/
theorem c5_rotation_witness :
    0 < amPool.length ∧
      showLoop amPool amPool.length idS midS pairsS 0 =
        Except.ok (assembleWith idS midS pairsS (fun j => selAt amPool (0 + j)),
          0 + pairsS.countP (fun p => decide (p.1 ∈ midS))) :=
  ⟨by simp [amPool], c5_rotation amPool (by simp [amPool]) idS midS pairsS 0⟩

/-- C6 counterexample: in a run with one ad of duration 100 at
segment_length 420, the ad's written manifest carries TARGETDURATION 420,
while the smallest integer at least the maximum entry duration is 100. -/
theorem c6_counterexample :
    (build_master_manifest outDir [showC, showB] [adA] 420).toOption.map
        (fun r => r.ad_manifests.map
          (fun am => (am.manifest.target_duration, specTargetDuration am.segments))) =
      some [(420, 100)] ∧ (420 : ℚ) ≠ ((100 : ℤ) : ℚ) := by
  constructor
  · have hspec : specTargetDuration (adSegmentsOf 420 adA) = 100 := by
      rw [adA_segments]
      unfold specTargetDuration maxEntryDuration segDurations
      rw [if_neg (by simp)]
      simp only [List.map_cons, List.map_nil, List.foldr_cons, List.foldr_nil]
      rw [show max adA.duration (0 : ℚ) = ((100 : ℤ) : ℚ) from by norm_num [adA],
        Int.ceil_intCast]
    rw [build_sampleRun]
    simp [Except.toOption, sampleRun, write_manifest, hspec]
  · norm_num

/-- C6 corrected: every manifest written during a run carries TARGETDURATION
equal to the run's segment_length argument (never the ceiling of the maximum
entry duration, and the documented default 10 is unused by these call
sites), and the master manifest's TARGETDURATION line is segment_length. -/
theorem c6_target_duration (od : String) (videos : List ShowAsset) (ads : List Ad)
    (L : ℚ) (r : MasterResult)
    (h : build_master_manifest od videos ads L = Except.ok r) :
    (∀ am ∈ r.ad_manifests, am.manifest.target_duration = L) ∧
    (∀ m ∈ r.manifest_paths, m.target_duration = L) ∧
    Line.targetDuration L ∈ r.master_manifest := by
  cases hpa : processAds od L ads with
  | error e =>
    simp only [build_master_manifest, hpa] at h
    cases h
  | ok adms =>
    simp only [build_master_manifest, hpa] at h
    cases hps : processShows od L adms ads.length videos 0 with
    | error e =>
      simp only [hps] at h
      cases h
    | ok smr =>
      obtain ⟨sE, sM, idx⟩ := smr
      simp only [hps] at h
      cases ads with
      | nil =>
        simp only [List.isEmpty_nil, if_true] at h
        cases h
        refine ⟨processAds_targets od L [] adms hpa, ?_, ?_⟩
        · exact processShows_targets od L adms _ videos 0 sE sM idx hps
        · simp [master_lines_of]
      | cons a as =>
        have hlen : adms.length = as.length + 1 := by
          rw [processAds_length od L (a :: as) adms hpa]
          rfl
        have hlt : idx % (as.length + 1) < adms.length := by
          rw [hlen]
          exact Nat.mod_lt _ (Nat.succ_pos _)
        have hget : adms[idx % (as.length + 1)]? = some adms[idx % (as.length + 1)] :=
          List.getElem?_eq_getElem hlt
        simp only [List.isEmpty_cons, Bool.false_eq_true, if_false, List.length_cons,
          show (as.length + 1 = 0) = False by simp, hget] at h
        cases h
        refine ⟨processAds_targets od L (a :: as) adms hpa, ?_, ?_⟩
        · exact processShows_targets od L adms _ videos 0 sE sM idx hps
        · simp [master_lines_of]

/-- C6 witness: the concrete one-ad run completes and all targets are 420. -/
theorem c6_target_duration_witness :
    ∃ r, build_master_manifest outDir [showC, showB] [adA] 420 = Except.ok r ∧
      ((∀ am ∈ r.ad_manifests, am.manifest.target_duration = 420) ∧
       (∀ m ∈ r.manifest_paths, m.target_duration = 420) ∧
       Line.targetDuration 420 ∈ r.master_manifest) :=
  ⟨sampleRun, build_sampleRun,
    c6_target_duration outDir [showC, showB] [adA] 420 sampleRun build_sampleRun⟩

/-- C7 counterexample: the stitched run over two shows and one ad has two
adjacent origin changes in its flattened timeline, yet the serialized master
manifest contains zero discontinuity markers, so the marker count does not
equal the number of origin changes. -/
theorem c7_counterexample :
    (build_master_manifest outDir [showC, showB] [adA] 420).toOption.map
        (fun r => (originChanges r.master_segments,
          countDiscontinuities r.master_manifest)) = some (2, 0) ∧ (0 : ℕ) ≠ 2 := by
  constructor
  · rw [build_sampleRun]
    simp [Except.toOption, sampleRun, sampleEntries, originChanges, showC, showB, adA,
      count_master_lines]
  · norm_num

/-- C7 corrected: no emitted manifest ever contains a discontinuity marker:
both write_manifest output and the master playlist serialization have
marker count zero for every input, so per-asset manifests trivially carry
none, but origin changes in the stitched timeline are not marked either. -/
theorem c7_no_discontinuities (od bn : String) (segs : List Segment) (t L : ℚ)
    (ms : List MasterEntry) :
    countDiscontinuities (write_manifest od bn segs t).lines = 0 ∧
    countDiscontinuities (master_lines_of L ms) = 0 :=
  ⟨count_write_manifest od bn segs t, count_master_lines L ms⟩

/-- C8 counterexample: no SchedulingError is signalled.  With nominal length
0 the cue/segment computation for a show aborts with an uncaught IndexError
(segments[-1] on an empty list), and a run whose ad pool contains a
positive-duration ad fails to return at all (the segmentation while loop
never terminates, modelled as nonTermination). -/
theorem c8_counterexample :
    build_show_segments showA 0 240 = Except.error RunError.indexError ∧
    build_master_manifest outDir [] [adA] 0 = Except.error RunError.nonTermination := by
  constructor
  · exact build_show_segments_nonpos showA 0 240 le_rfl
  · simp only [build_master_manifest,
      processAds_nonpos outDir 0 le_rfl [adA] ⟨adA, by simp, by norm_num [adA]⟩]

/-- C8 corrected: with a non-positive nominal segment length the computation
does not signal a SchedulingError: every show's cue computation raises an
uncaught IndexError, and any run whose pool has a positive-duration ad
fails to return (non-terminating segmentation loop). -/
theorem c8_no_scheduling_error (L : ℚ) (hL : L ≤ 0) :
    (∀ (sh : ShowAsset) (T : ℚ),
      build_show_segments sh L T = Except.error RunError.indexError) ∧
    (∀ (od : String) (videos : List ShowAsset) (ads : List Ad),
      (∃ a ∈ ads, 0 < a.duration) →
        build_master_manifest od videos ads L = Except.error RunError.nonTermination) := by
  constructor
  · intro sh T
    exact build_show_segments_nonpos sh L T hL
  · intro od videos ads hex
    simp only [build_master_manifest, processAds_nonpos od L hL ads hex]

/-- C8 witness at L = 0. -/
theorem c8_no_scheduling_error_witness :
    (0 : ℚ) ≤ 0 ∧
      ((∀ (sh : ShowAsset) (T : ℚ),
        build_show_segments sh 0 T = Except.error RunError.indexError) ∧
      (∀ (od : String) (videos : List ShowAsset) (ads : List Ad),
        (∃ a ∈ ads, 0 < a.duration) →
          build_master_manifest od videos ads 0 = Except.error RunError.nonTermination)) :=
  ⟨le_refl 0, c8_no_scheduling_error 0 (le_refl 0)⟩

/-- C9 counterexample: at nominal length 840 build_show_segments does not
return one segment of duration 840 and its cue list is not empty: it
420-chunks the nominal length itself into two segments of 420 and reports
cue position 0 (so mid-show ad insertion can occur). -/
theorem c9_counterexample :
    build_show_segments showD 840 240 =
      Except.ok ([{ filename := { base := showD.file_path, num := 1 }, duration := 420 },
        { filename := { base := showD.file_path, num := 2 }, duration := 420 }], [0]) := by
  have hsv : segment_video showD.file_path 840 420 =
      some [{ filename := { base := showD.file_path, num := 1 }, duration := 420 },
        { filename := { base := showD.file_path, num := 2 }, duration := 420 }] := by
    rw [segment_video_pos _ _ _ (by norm_num)]
    have hc : ⌈(840 : ℚ) / 420⌉ = 2 := by
      rw [Int.ceil_eq_iff]
      norm_num
    rw [hc]
    norm_num [segmentLoop, min_def]
  unfold build_show_segments
  rw [hsv]
  norm_num [List.filter, showD]

/-- C9 corrected (provable part): build_show_segments passes the nominal
length in place of the show's duration; for every show and every
0 < L ≤ 420 (the default included) it returns exactly one segment of
duration L regardless of the show's actual duration, with an empty cue
list, so no mid-show insertion happens for such L. -/
theorem c9_degenerate_segmentation (sh : ShowAsset) (L T : ℚ) (h0 : 0 < L)
    (h420 : L ≤ 420) :
    build_show_segments sh L T =
      Except.ok ([{ filename := { base := sh.file_path, num := 1 }, duration := L }],
        []) :=
  build_show_segments_single sh L T h0 h420

/-- C9 witness at L = 300 on a 1500 s show. -/
theorem c9_degenerate_segmentation_witness :
    (0 : ℚ) < 300 ∧ (300 : ℚ) ≤ 420 ∧
      build_show_segments showA 300 240 =
        Except.ok
          ([{ filename := { base := showA.file_path, num := 1 }, duration := 300 }],
            []) :=
  ⟨by norm_num, by norm_num,
    c9_degenerate_segmentation showA 300 240 (by norm_num) (by norm_num)⟩

/-- C10: two configs equal in videos, ads and segment_duration_sec produce
identical run results whatever their cue_interval_sec and
min_last_segment_sec are: those two values never reach
build_master_manifest. -/
theorem c10_config_noninterference (c1 c2 : Config) (hv : c1.videos = c2.videos)
    (ha : c1.ads = c2.ads)
    (hs : c1.segment_duration_sec = c2.segment_duration_sec) :
    main_run c1 = main_run c2 := by
  unfold main_run
  rw [hv, ha, hs]

/-- C10 witness: cfgA and cfgB differ only in cue_interval_sec (420 vs 999)
and min_last_segment_sec (240 vs 7). -/
theorem c10_config_noninterference_witness :
    cfgA.videos = cfgB.videos ∧ cfgA.ads = cfgB.ads ∧
      cfgA.segment_duration_sec = cfgB.segment_duration_sec ∧
      main_run cfgA = main_run cfgB :=
  ⟨rfl, rfl, rfl, c10_config_noninterference cfgA cfgB rfl rfl rfl⟩
